import Mathlib

/-!
Verification of the hybrid lexical+vector product-search engine of the
pet-products repository (the `search_products` tool in `mcp_server.py`,
with the near-duplicate agent-side tool in `pet_agent.py`).

The embedding translates the Python source into Lean:
pure fragments become Lean functions; Python dictionaries become
insertion-ordered association lists; exceptions become `Except`/`Option`;
the floating-point RRF arithmetic is modelled by exact rationals.
-/

/-! ### String helpers from the source

Python string primitives are re-implemented over `List Char` so that every
definition evaluates by kernel reduction. -/

deriving instance DecidableEq for Except

/-- Python `str.lower()` (ASCII case mapping). -/
def pyLower (s : String) : String := ⟨s.data.map Char.toLower⟩

/-- Python `str.strip()`: whitespace removed from both ends. -/
def pyStrip (s : String) : String :=
  ⟨((s.data.dropWhile Char.isWhitespace).reverse.dropWhile Char.isWhitespace).reverse⟩

/-- Split a character list at every occurrence of `sep` (Python
`s.split(sep)` for a one-character separator). -/
def splitOnChar (sep : Char) : List Char → List (List Char)
  | [] => [[]]
  | c :: t =>
    if c = sep then [] :: splitOnChar sep t
    else
      match splitOnChar sep t with
      | [] => [[c]]
      | g :: gs => (c :: g) :: gs

/-- Python `" ".join(parts)`. -/
def joinSpace : List String → String
  | [] => ""
  | [x] => x
  | x :: xs => x ++ " " ++ joinSpace xs

/-- `[x.strip() for x in s.split(",") if x.strip()]` -- comma-split, trim,
drop empties (`_csv_list` in `mcp_server.py`). -/
def csvList (s : String) : List String :=
  ((splitOnChar ',' s.data).map (fun cs => pyStrip ⟨cs⟩)).filter (fun x => x != "")

/-- Python `str.capitalize()`: first character upper-cased, the rest
lower-cased (ASCII behaviour suffices for the species strings). -/
def pyCapitalize (s : String) : String :=
  match s.toList with
  | [] => ""
  | c :: t => (c.toUpper :: t.map Char.toLower).asString

/-- Python `str.title()` restricted to the alphabetic/non-alphabetic
boundary rule: the first letter of each alphabetic run is upper-cased and
the rest lower-cased. -/
def pyTitleAux : Bool → List Char → List Char
  | _, [] => []
  | prevAlpha, c :: t =>
    (if c.isAlpha then (if prevAlpha then c.toLower else c.toUpper) else c)
      :: pyTitleAux c.isAlpha t

def pyTitle (s : String) : String := (pyTitleAux false s.toList).asString

/-! ### Hits and Reciprocal Rank Fusion (`search_products` in `mcp_server.py`) -/

/-- One OpenSearch hit, reduced to the two identity fields the fusion code
reads: `_id` and `_source.variant_id`.  An empty string models a missing
field (Python falsiness of `None` and `""` coincide here). -/
structure Hit where
  id : String
  variant_id : String
deriving DecidableEq, Repr

/-- `h.get("_id") or (h.get("_source") or {}).get("variant_id") or ""`:
the fusion identity of a hit. -/
def identity (h : Hit) : String :=
  if h.id = "" then h.variant_id else h.id

/-- The per-rank RRF contribution `1.0 / (k + idx)` (floats modelled as
exact rationals). -/
def rrfVal (k i : ℕ) : ℚ := 1 / ((k : ℚ) + (i : ℚ))

/-- `ranks.get(_id, 0.0)` on the insertion-ordered score dictionary. -/
def getD : List (String × ℚ) → String → ℚ
  | [], _ => 0
  | p :: t, k => if p.1 = k then p.2 else getD t k

/-- `ranks[_id] = v` on the insertion-ordered score dictionary: an existing
key keeps its position, a new key is appended at the end (CPython dict
semantics). -/
def setK : List (String × ℚ) → String → ℚ → List (String × ℚ)
  | [], k, v => [(k, v)]
  | p :: t, k, v => if p.1 = k then (k, v) :: t else p :: setK t k v

/-- The loop body of `rrf(hits, k=60)`: `for idx, h in enumerate(hits, start=1)`
accumulating `ranks[_id] += 1.0/(k+idx)` and skipping empty identities. -/
def rrfAux (k : ℕ) : List Hit → ℕ → List (String × ℚ) → List (String × ℚ)
  | [], _, acc => acc
  | h :: t, i, acc =>
    if identity h = "" then rrfAux k t (i + 1) acc
    else rrfAux k t (i + 1) (setK acc (identity h) (getD acc (identity h) + rrfVal k i))

/-- `rrf(hits)` with the default smoothing constant `k = 60`. -/
def rrf (hits : List Hit) : List (String × ℚ) := rrfAux 60 hits 1 []

/-- `for did, s in knn_scores.items(): fused[did] = fused.get(did, 0.0) + s`. -/
def addScores (base add : List (String × ℚ)) : List (String × ℚ) :=
  add.foldl (fun acc p => setK acc p.1 (getD acc p.1 + p.2)) base

/-- `fused = rrf(bm25_hits); if knn_hits: <add rrf(knn_hits)>`. -/
def fuse (bm25 knn : List Hit) : List (String × ℚ) :=
  if knn.isEmpty then rrf bm25 else addScores (rrf bm25) (rrf knn)

/-- The specification-side formula: the sum of `1/(k+i)` over the 1-based
ranks `i` of the channel at which the document identity `d` appears. -/
def contribFrom (k i : ℕ) : List Hit → String → ℚ
  | [], _ => 0
  | h :: t, d => (if identity h = d then rrfVal k i else 0) + contribFrom k (i + 1) t d

/-- Stable insertion step of a descending-by-score sort: the new element is
placed before the first strictly smaller score, hence after equal scores. -/
def insertDesc (p : String × ℚ) : List (String × ℚ) → List (String × ℚ)
  | [] => [p]
  | q :: t => if q.2 < p.2 then p :: q :: t else q :: insertDesc p t

/-- `sorted(fused.items(), key=lambda kv: kv[1], reverse=True)`: Python
`sorted` is a stable sort, and `reverse=True` keeps ties in insertion
order; any stable descending-by-score sort computes it. -/
def sortDesc (l : List (String × ℚ)) : List (String × ℚ) :=
  l.foldl (fun acc p => insertDesc p acc) []

/-- `docmap = {_h.get("_id"): _h for _h in (bm25_hits + knn_hits) if _h.get("_id")}`
followed by `docmap[k]`: the comprehension keys only the `_id` field (not the
fusion identity) and later entries overwrite earlier ones, so lookup finds the
last hit whose `_id` equals `k`; a missing key is a `KeyError`, modelled by
`none`. -/
def docmapFind (hits : List Hit) (k : String) : Option Hit :=
  ((hits.filter (fun h => h.id != "")).reverse).find? (fun h => h.id == k)

/-- `[docmap[i] for i, _ in ranked]` with `KeyError` propagated as `none`. -/
def projectRanked (hits : List Hit) : List (String × ℚ) → Option (List Hit)
  | [] => some []
  | p :: t =>
    match docmapFind hits p.1 with
    | none => none
    | some h =>
      match projectRanked hits t with
      | none => none
      | some rest => some (h :: rest)

/-- `ranked_docs = [docmap[i] for i, _ in ranked] if ranked else bm25_hits`. -/
def rankedDocs (bm25 knn : List Hit) : Option (List Hit) :=
  let ranked := sortDesc (fuse bm25 knn)
  if ranked.isEmpty then some bm25
  else projectRanked (bm25 ++ knn) ranked

/-- The public result page of `search_products` (`results` kept as the
selected hits: the per-hit field projection maps one hit to one result and
does not change the count or the order). -/
structure SearchPage where
  results : List Hit
  total : ℕ
  page : ℤ
  size : ℕ
  mode : String
deriving DecidableEq, Repr

/-- The tail of `search_products` after both retrievals:
`page_docs = ranked_docs[:5]` and
`out = {"results": ..., "total": len(ranked_docs), "page": page, "size": 5,
"mode": "hybrid" if knn_hits else "bm25"}`.  The caller-supplied `sizeReq`
is not consulted here (the source hard-codes `5`). -/
def searchOutput (bm25 knn : List Hit) (page : ℤ) (sizeReq : ℤ) : Option SearchPage :=
  match rankedDocs bm25 knn with
  | none => none
  | some rd =>
    some { results := rd.take 5
         , total := rd.length
         , page := page
         , size := 5
         , mode := if knn.isEmpty then "bm25" else "hybrid" }

/-- The ranked pairs an all-distinct, all-identified hit list produces:
entry `j` (0-based) is `(identity hits[j], 1/(k+i+j))`. -/
def expectedRanks (k : ℕ) : ℕ → List Hit → List (String × ℚ)
  | _, [] => []
  | i, h :: t => (identity h, rrfVal k i) :: expectedRanks k (i + 1) t

/-! ### KNN availability circuit breaker (`_knn_available` in `mcp_server.py`) -/

/-- Contiguous-subsequence test used to model Python `needle in hay`. -/
def containsSeq (needle : List Char) : List Char → Bool
  | [] => needle.isEmpty
  | c :: t => needle.isPrefixOf (c :: t) || containsSeq needle t

/-- `"Unknown key" in str(e) or "parsing_exception" in str(e)` -- the
"unsupported" error class recognised at the `except` handler of the KNN
query. -/
def isUnsupportedError (e : String) : Bool :=
  containsSeq "Unknown key".toList e.toList || containsSeq "parsing_exception".toList e.toList

/-- The per-request environment of the vector channel: the caller-supplied
`embedding_text`, the embedding adapter outcome (`None` on failure), and the
outcome the index service would give to the KNN query. -/
structure VecEnv where
  embeddingText : String
  embedVec : Option (List ℚ)
  knnOutcome : Except String (List Hit)
deriving Repr

/-- `if vec:` -- Python falsiness of `None` and of an empty vector. -/
def vecTruthy : Option (List ℚ) → Bool
  | none => false
  | some v => v != []

/-- Whether this request reaches `os_search(knn_body)`: the guard
`if embedding_text and _knn_available["ok"]` followed by `if vec:`. -/
def vecAttempted (st : Bool) (env : VecEnv) : Bool :=
  (env.embeddingText != "") && st && vecTruthy env.embedVec

/-- One request through the vector channel: returns the new value of the
process-wide `_knn_available["ok"]` flag and the `knn_hits` list.  On a
failure of the "unsupported" class the flag is set to `false`; every other
failure is swallowed with the flag unchanged. -/
def knnAttempt (st : Bool) (env : VecEnv) : Bool × List Hit :=
  if (env.embeddingText != "") && st then
    if vecTruthy env.embedVec then
      match env.knnOutcome with
      | .ok hits => (st, hits)
      | .error e => (if isUnsupportedError e then false else st, [])
    else (st, [])
  else (st, [])

/-- A process trace: successive requests sharing the `_knn_available` flag.
For each request it records whether a vector query was attempted and the
flag value after the request. -/
def runKnn (st : Bool) : List VecEnv → List (Bool × Bool)
  | [] => []
  | env :: rest =>
    (vecAttempted st env, (knnAttempt st env).1) :: runKnn (knnAttempt st env).1 rest

/-! ### Filter values and the filter compiler (`search_products` in `mcp_server.py`) -/

/-- A JSON-ish filter value as the Python code duck-types it: string,
number (ints and floats both modelled as rationals), boolean, list of
strings, or a structured range object (a dict of numeric bounds). -/
inductive FVal where
  | str (v : String)
  | num (v : ℚ)
  | boolean (v : Bool)
  | list (vs : List String)
  | dict (d : List (String × ℚ))
deriving DecidableEq, Repr

/-- Python truthiness, as used by `if not value: continue` and
`bool(value)`. -/
def FVal.truthy : FVal → Bool
  | .str v => v != ""
  | .num q => q != 0
  | .boolean b => b
  | .list l => l != []
  | .dict d => d != []

/-- Python `str(value)` for the non-string, non-list fallbacks (only the
shape matters to the claims; the decimal rendering of numbers is
approximated by the rational literal). -/
def pyStr : FVal → String
  | .str v => v
  | .num q => toString q
  | .boolean true => "True"
  | .boolean false => "False"
  | .list vs => toString vs
  | .dict _ => "dict"

/-- `float(value)`: numbers pass through, booleans become 0/1, simple
decimal strings parse, anything else raises. -/
def digitsToNat (cs : List Char) : ℕ :=
  cs.foldl (fun n c => n * 10 + (c.toNat - '0'.toNat)) 0

def parseUnsigned (cs : List Char) : Option ℚ :=
  let intPart := cs.takeWhile Char.isDigit
  let rest := cs.dropWhile Char.isDigit
  match rest with
  | [] => if intPart = [] then none else some ((digitsToNat intPart : ℚ))
  | '.' :: frac =>
    if frac.all Char.isDigit ∧ (intPart ≠ [] ∨ frac ≠ []) then
      some ((digitsToNat intPart : ℚ) + (digitsToNat frac : ℚ) / ((10 : ℚ) ^ frac.length))
    else none
  | _ => none

def parseFloat (s : String) : Option ℚ :=
  match (pyStrip s).data with
  | '-' :: cs => (parseUnsigned cs).map Neg.neg
  | '+' :: cs => parseUnsigned cs
  | cs => parseUnsigned cs

def pyFloat : FVal → Except String ℚ
  | .num q => .ok q
  | .boolean b => .ok (if b then 1 else 0)
  | .str s =>
    match parseFloat s with
    | some q => .ok q
    | none => .error ("could not convert string to float: " ++ s)
  | .list _ => .error "float() argument must be a string or a real number"
  | .dict _ => .error "float() argument must be a string or a real number"

def parseIntStr (s : String) : Option ℤ :=
  match (pyStrip s).data with
  | [] => none
  | '-' :: cs => if cs ≠ [] ∧ cs.all Char.isDigit then some (-(digitsToNat cs : ℤ)) else none
  | '+' :: cs => if cs ≠ [] ∧ cs.all Char.isDigit then some ((digitsToNat cs : ℤ)) else none
  | cs => if cs.all Char.isDigit then some ((digitsToNat cs : ℤ)) else none

/-- `int(value)`: numbers truncate toward zero, booleans become 0/1,
integer strings parse, anything else raises. -/
def pyInt : FVal → Except String ℤ
  | .num q => .ok (if 0 ≤ q then ⌊q⌋ else ⌈q⌉)
  | .boolean b => .ok (if b then 1 else 0)
  | .str s =>
    match parseIntStr s with
    | some n => .ok n
    | none => .error ("invalid literal for int() with base 10: " ++ s)
  | .list _ => .error "int() argument must be a string or a number"
  | .dict _ => .error "int() argument must be a string or a number"

/-- `filters[k]` / `k in filters` on the caller-supplied mapping. -/
def dictGet (m : List (String × FVal)) (k : String) : Option FVal :=
  (m.find? (fun p => p.1 == k)).map Prod.snd

/-- One compiled boolean-query clause. -/
inductive Clause where
  | term (field : String) (value : FVal)
  | termsList (field : String) (values : List String)
  | rangeC (field : String) (bounds : List (String × ℚ))
  | matchPhrase (field : String) (phrase : String)
  | matchSoft (field : String) (query : FVal) (op : String)
deriving DecidableEq, Repr

/-- The three clause lists the filter loop appends to (`must` receives only
the text block, built separately). -/
structure Clauses where
  should : List Clause
  filt : List Clause
  mustNot : List Clause
deriving DecidableEq, Repr

/-- Recogniser for a species exact-match term clause. -/
def isSpeciesTerm : Clause → Bool
  | .term f _ => f == "species"
  | _ => false

/-- Recogniser for the sale-price range clause. -/
def isPriceRange : Clause → Bool
  | .rangeC f _ => f == "price_sale"
  | _ => false

/-- Recogniser for a phrase-exclusion clause on the flavour field. -/
def isFlavourPhrase : Clause → Bool
  | .matchPhrase f _ => f == "flavour"
  | _ => false

/-- The names of the specially-handled filter keys, in branch order. -/
def knownKeys : List String :=
  ["life_stage", "food_type", "flavour", "brand", "manufacturer", "pack_size",
   "country_of_origin", "tags_any", "price_min", "price_max", "rating",
   "num_reviews", "discount_value", "availability.in_stock",
   "exclude_ingredients", "breed_soft"]

/-- `tags_any` / `exclude_ingredients` value normalisation: comma-split a
string, keep a list, stringify anything else. -/
def listify : FVal → List String
  | .str s => csvList s
  | .list l => l
  | v => [pyStr v]

/-- One optional price bound: `if key in filters and filters[key]:
bounds[lbl] = float(filters[key])`. -/
def boundOf (flt : List (String × FVal)) (key lbl : String) : Except String (List (String × ℚ)) :=
  match dictGet flt key with
  | some v =>
    if v.truthy then
      match pyFloat v with
      | .ok q => .ok [(lbl, q)]
      | .error e => .error e
    else .ok []
  | none => .ok []

/-- The `price_range` dict assembled inside the `price_min`/`price_max`
branch: `gte` from `price_min` first, then `lte` from `price_max`, reading
the whole `filters` mapping. -/
def priceBounds (flt : List (String × FVal)) : Except String (List (String × ℚ)) :=
  match boundOf flt "price_min" "gte" with
  | .error e => .error e
  | .ok p1 =>
    match boundOf flt "price_max" "lte" with
    | .error e => .error e
    | .ok p2 => .ok (p1 ++ p2)

/-- The clauses a single truthy `(field, value)` entry appends, following
the `elif` chain of the filter loop in `search_products`; `flt` is the whole
`filters` mapping (consulted by the price branch). -/
def stepClauses (flt : List (String × FVal)) (field : String) (value : FVal) :
    Except String Clauses :=
  if field = "life_stage" then
    match value with
    | .str v =>
      if pyLower v ≠ "all" then .ok ⟨[], [.termsList "life_stage" [v, "All"]], []⟩
      else .ok ⟨[.term "life_stage" (.str "All")], [], []⟩
    | _ => .ok ⟨[], [], []⟩
  else if field = "food_type" then .ok ⟨[], [.term "food_type" value], []⟩
  else if field = "flavour" then .ok ⟨[], [.term "flavour" value], []⟩
  else if field = "brand" then .ok ⟨[], [.term "brand" value], []⟩
  else if field = "manufacturer" then .ok ⟨[], [.term "manufacturer" value], []⟩
  else if field = "pack_size" then .ok ⟨[], [.term "pack_size" value], []⟩
  else if field = "country_of_origin" then .ok ⟨[], [.term "country_of_origin" value], []⟩
  else if field = "tags_any" then
    if listify value ≠ [] then .ok ⟨[.termsList "tags" (listify value)], [], []⟩
    else .ok ⟨[], [], []⟩
  else if field = "price_min" ∨ field = "price_max" then
    match priceBounds flt with
    | .error e => .error e
    | .ok pr =>
      if pr ≠ [] then .ok ⟨[], [.rangeC "price_sale" pr], []⟩ else .ok ⟨[], [], []⟩
  else if field = "rating" then
    match value with
    | .dict d => .ok ⟨[], [.rangeC "rating" d], []⟩
    | _ =>
      match pyFloat value with
      | .ok q => .ok ⟨[], [.rangeC "rating" [("gte", q)]], []⟩
      | .error e => .error e
  else if field = "num_reviews" then
    match value with
    | .dict d => .ok ⟨[], [.rangeC "num_reviews" d], []⟩
    | _ =>
      match pyInt value with
      | .ok n => .ok ⟨[], [.rangeC "num_reviews" [("gte", (n : ℚ))]], []⟩
      | .error e => .error e
  else if field = "discount_value" then
    match value with
    | .dict d => .ok ⟨[], [.rangeC "discount_value" d], []⟩
    | _ =>
      match pyFloat value with
      | .ok q => .ok ⟨[], [.rangeC "discount_value" [("gt", q)]], []⟩
      | .error e => .error e
  else if field = "availability.in_stock" then
    .ok ⟨[], [.term "availability.in_stock" (.boolean value.truthy)], []⟩
  else if field = "exclude_ingredients" then
    .ok ⟨[], [],
      (listify value).foldr (fun ex acc =>
        Clause.matchPhrase "ingredients" ex :: Clause.matchPhrase "flavour" ex :: acc) []⟩
  else if field = "breed_soft" then
    .ok ⟨[.matchSoft "searchable_text" value "and"], [], []⟩
  else .ok ⟨[], [.term field value], []⟩

/-- The filter loop `for field, value in filters.items()`: untruthy values
are skipped (`if not value: continue`), every other entry appends its
clauses in iteration order; the first raised exception aborts the search. -/
def collectClauses (flt : List (String × FVal)) : List (String × FVal) → Except String Clauses
  | [] => .ok ⟨[], [], []⟩
  | (f, v) :: rest =>
    if v.truthy then
      match stepClauses flt f v with
      | .error e => .error e
      | .ok d =>
        match collectClauses flt rest with
        | .error e => .error e
        | .ok c => .ok ⟨d.should ++ c.should, d.filt ++ c.filt, d.mustNot ++ c.mustNot⟩
    else collectClauses flt rest

/-- The compiled clause lists: `filt` is seeded with the mandatory
`{"term": {"species": sp}}` clause before the loop runs. -/
def compileFilters (sp : String) (filters : List (String × FVal)) : Except String Clauses :=
  match collectClauses filters filters with
  | .error e => .error e
  | .ok c => .ok ⟨c.should, Clause.term "species" (FVal.str sp) :: c.filt, c.mustNot⟩

/-! ### Species normalisation and query text -/

/-- `_normalize_species` in `mcp_server.py`:
`(species or "").strip().capitalize()`, rejecting anything that is not
`"Dog"` or `"Cat"` with a `ValueError`. -/
def normalizeSpecies (species : String) : Except String String :=
  let s := pyCapitalize (pyStrip species)
  if s = "Dog" ∨ s = "Cat" then .ok s
  else .error "species must be Dog or Cat"

/-- One optional synthesized-query part (`life_stage` / `breed_soft`):
present-and-truthy values are appended to the joined parts; a truthy
non-string value makes the later `" ".join` raise. -/
def qPart (filters : List (String × FVal)) (key : String) : Except String (List String) :=
  match dictGet filters key with
  | some v =>
    if v.truthy then
      match v with
      | .str s => .ok [s]
      | _ => .error "sequence item: expected str instance"
    else .ok []
  | none => .ok []

/-- Query-text synthesis in `search_products`: a blank `query` becomes
`"best food for {sp.lower()}"` plus the truthy `life_stage` and
`breed_soft` filter values; otherwise the stripped query is used. -/
def synthQText (query sp : String) (filters : List (String × FVal)) : Except String String :=
  if pyStrip query = "" then
    match qPart filters "life_stage" with
    | .error e => .error e
    | .ok ls =>
      match qPart filters "breed_soft" with
      | .error e => .error e
      | .ok bs => .ok (joinSpace (("best food for " ++ pyLower sp) :: (ls ++ bs)))
  else .ok (pyStrip query)

/-- One of the three lexical text queries tried in the `should` block of the
must clause. -/
inductive TextQuery where
  | multiMatch (query : String) (fields : List String) (qtype op : String)
  | matchBoost (field query : String) (boost : ℚ)
deriving DecidableEq, Repr

def textQueriesOf (qtext : String) : List TextQuery :=
  [ .multiMatch qtext
      ["title^5", "brand^3", "tags^3", "food_type^3", "flavour^2",
       "ingredients", "description", "searchable_text"] "best_fields" "and"
  , .multiMatch qtext
      ["title^5", "brand^3", "tags^3", "food_type^3", "flavour^2",
       "ingredients", "description"] "best_fields" "or"
  , .matchBoost "title" qtext 5 ]

/-- The lexical query body (`bm25_body`): candidate size
`min(max(size*3, size), 150)`, the text-query must block, and the compiled
clause lists. -/
structure BM25Body where
  size : ℤ
  textQueries : List TextQuery
  minimumShouldMatch : ℕ
  filter : List Clause
  should : List Clause
  mustNot : List Clause
deriving DecidableEq, Repr

/-- Everything `search_products` computes before its first network call:
species validation, then filter compilation, then query-text synthesis,
then the lexical body.  An error at any stage aborts the request before
any query body exists. -/
def buildSearch (species : String) (filters : List (String × FVal)) (query : String)
    (sizeReq : ℤ) : Except String BM25Body :=
  match normalizeSpecies species with
  | .error e => .error e
  | .ok sp =>
    match compileFilters sp filters with
    | .error e => .error e
    | .ok cl =>
      match synthQText query sp filters with
      | .error e => .error e
      | .ok qtext =>
        .ok { size := min (max (sizeReq * 3) sizeReq) 150
            , textQueries := textQueriesOf qtext
            , minimumShouldMatch := 1
            , filter := cl.filt
            , should := cl.should
            , mustNot := cl.mustNot }

/-! ### The near-duplicate agent tool (`search_products_tool` in `pet_agent.py`) -/

/-- `sp = species.title() if species.lower() in ["dog", "cat"] else "Dog"`:
the agent copy silently defaults an unknown species instead of raising. -/
def petNormalizeSpecies (species : String) : String :=
  if pyLower species = "dog" ∨ pyLower species = "cat" then pyTitle species else "Dog"

/-- The agent copy of the ingredient exclusion: each parsed entry yields a
`must_not` phrase clause on `ingredients` only. -/
def petExcludeClauses (excl : String) : List Clause :=
  if excl ≠ "" then (csvList excl).map (fun ex => Clause.matchPhrase "ingredients" ex)
  else []

/-- The agent copy of query-text synthesis: only `life_stage` (when truthy
and not `"all"`) is appended; `breed_soft` is never consulted. -/
def petSynthQText (query sp : String) (filter_dict : List (String × FVal)) : String :=
  let life_stage := match dictGet filter_dict "life_stage" with
    | some (.str s) => s
    | _ => ""
  if pyStrip query = "" then
    if life_stage ≠ "" ∧ pyLower life_stage ≠ "all" then
      joinSpace ["best food for " ++ pyLower sp, life_stage]
    else "best food for " ++ pyLower sp
  else pyStrip query

/-! ### Score-dictionary lemmas -/

theorem getD_setK_self (m : List (String × ℚ)) (k : String) (v : ℚ) :
    getD (setK m k v) k = v := by
  induction m with
  | nil => simp [setK, getD]
  | cons p t ih =>
    by_cases h : p.1 = k
    · simp [setK, h, getD]
    · simp [setK, h, getD, ih]

theorem getD_setK_ne (m : List (String × ℚ)) (k : String) (v : ℚ) (d : String)
    (h : d ≠ k) : getD (setK m k v) d = getD m d := by
  have hkd : ¬ k = d := fun hh => h hh.symm
  induction m with
  | nil => simp [setK, getD, hkd]
  | cons p t ih =>
    by_cases hp : p.1 = k
    · simp [setK, hp, getD, hkd]
    · by_cases hpd : p.1 = d <;> simp [setK, hp, getD, hpd, h, ih]

theorem getD_eq_zero (m : List (String × ℚ)) (k : String)
    (h : k ∉ m.map Prod.fst) : getD m k = 0 := by
  induction m with
  | nil => simp [getD]
  | cons p t ih =>
    simp only [List.map_cons, List.mem_cons] at h
    push_neg at h
    have hp : ¬ p.1 = k := Ne.symm h.1
    simp [getD, hp, ih h.2]

theorem setK_of_not_mem (m : List (String × ℚ)) (k : String) (v : ℚ)
    (h : k ∉ m.map Prod.fst) : setK m k v = m ++ [(k, v)] := by
  induction m with
  | nil => simp [setK]
  | cons p t ih =>
    simp only [List.map_cons, List.mem_cons] at h
    push_neg at h
    have hp : ¬ p.1 = k := Ne.symm h.1
    simp [setK, hp, ih h.2]

theorem keys_setK_of_mem (m : List (String × ℚ)) (k : String) (v : ℚ)
    (h : k ∈ m.map Prod.fst) : (setK m k v).map Prod.fst = m.map Prod.fst := by
  induction m with
  | nil => simp at h
  | cons p t ih =>
    by_cases hp : p.1 = k
    · simp [setK, hp]
    · simp only [List.map_cons, List.mem_cons] at h
      rcases h with h | h

      · exact absurd h.symm hp
      · simp [setK, hp, ih h]

theorem nodup_keys_setK (m : List (String × ℚ)) (k : String) (v : ℚ)
    (h : (m.map Prod.fst).Nodup) : ((setK m k v).map Prod.fst).Nodup := by
  by_cases hk : k ∈ m.map Prod.fst
  · rw [keys_setK_of_mem m k v hk]; exact h
  · rw [setK_of_not_mem m k v hk]
    simp only [List.map_append, List.map_cons, List.map_nil]
    rw [List.nodup_append]
    refine ⟨h, List.nodup_singleton k, ?_⟩
    intro a ha hb
    rw [List.mem_singleton] at hb
    subst hb
    exact hk ha

theorem rrfAux_getD (k : ℕ) (hits : List Hit) :
    ∀ (i : ℕ) (acc : List (String × ℚ)) (d : String), d ≠ "" →
      getD (rrfAux k hits i acc) d = getD acc d + contribFrom k i hits d := by
  induction hits with
  | nil => intro i acc d _; simp [rrfAux, contribFrom]
  | cons h t ih =>
    intro i acc d hd
    by_cases hid : identity h = ""
    · have hed : ¬ ("" = d) := fun hh => hd hh.symm
      simp [rrfAux, hid, contribFrom, hed, ih (i + 1) acc d hd]
    · by_cases hdd : identity h = d
      · simp only [rrfAux, if_neg hid]
        rw [ih (i + 1) _ d hd, hdd, getD_setK_self]
        simp only [contribFrom, if_pos hdd]
        ring
      · have hdn : d ≠ identity h := fun hh => hdd hh.symm
        simp only [rrfAux, if_neg hid]
        rw [ih (i + 1) _ d hd, getD_setK_ne _ _ _ _ hdn]
        simp only [contribFrom, if_neg hdd]
        ring

theorem rrfAux_keys_nodup (k : ℕ) (hits : List Hit) :
    ∀ (i : ℕ) (acc : List (String × ℚ)), ((acc.map Prod.fst).Nodup) →
      (((rrfAux k hits i acc).map Prod.fst).Nodup) := by
  induction hits with
  | nil => intro i acc h; simpa [rrfAux] using h
  | cons h t ih =>
    intro i acc hacc
    by_cases hid : identity h = ""
    · simpa [rrfAux, hid] using ih (i + 1) acc hacc
    · simpa [rrfAux, hid] using ih (i + 1) _ (nodup_keys_setK _ _ _ hacc)

theorem rrf_getD (hits : List Hit) (d : String) (hd : d ≠ "") :
    getD (rrf hits) d = contribFrom 60 1 hits d := by
  rw [rrf, rrfAux_getD 60 hits 1 [] d hd]; simp [getD]

theorem rrf_keys_nodup (hits : List Hit) : ((rrf hits).map Prod.fst).Nodup :=
  rrfAux_keys_nodup 60 hits 1 [] (by simp)

theorem addScores_getD (add : List (String × ℚ)) :
    ∀ (base : List (String × ℚ)) (d : String), ((add.map Prod.fst).Nodup) →
      getD (addScores base add) d = getD base d + getD add d := by
  induction add with
  | nil => intro base d _; simp [addScores, getD]
  | cons p t ih =>
    intro base d hnd
    simp only [List.map_cons, List.nodup_cons] at hnd
    have step : addScores base (p :: t) = addScores (setK base p.1 (getD base p.1 + p.2)) t := by
      simp [addScores]
    rw [step, ih _ d hnd.2]
    by_cases hdk : d = p.1
    · subst hdk
      rw [getD_setK_self, getD_eq_zero t p.1 hnd.1]
      simp [getD]
    · rw [getD_setK_ne _ _ _ _ hdk]
      have hpd : ¬ p.1 = d := fun hh => hdk hh.symm
      simp only [getD, if_neg hpd]

/-! ### Lexical-only fusion preserves the hit order (support for C2) -/

theorem identity_of_id_ne (h : Hit) (hh : h.id ≠ "") : identity h = h.id := by
  simp [identity, hh]

theorem rrfAux_fresh (k : ℕ) (hits : List Hit) :
    ∀ (i : ℕ) (acc : List (String × ℚ)),
      (∀ h ∈ hits, identity h ≠ "") →
      ((hits.map identity).Nodup) →
      (∀ h ∈ hits, identity h ∉ acc.map Prod.fst) →
      rrfAux k hits i acc = acc ++ expectedRanks k i hits := by
  induction hits with
  | nil => intro i acc _ _ _; simp [rrfAux, expectedRanks]
  | cons h t ih =>
    intro i acc hne hnd hfresh
    have hid : ¬ identity h = "" := hne h (by simp)
    have hmem : identity h ∉ acc.map Prod.fst := hfresh h (by simp)
    simp only [List.map_cons, List.nodup_cons] at hnd
    simp only [rrfAux, if_neg hid]
    rw [getD_eq_zero _ _ hmem, setK_of_not_mem _ _ _ hmem]
    rw [ih (i + 1) (acc ++ [(identity h, 0 + rrfVal k i)])
      (fun h2 hm => hne h2 (by simp [hm]))
      hnd.2
      ?fresh2]
    · simp [expectedRanks]
    case fresh2 =>
      intro h2 hm
      simp only [List.map_append, List.map_cons, List.map_nil, List.mem_append,
        List.mem_singleton]
      push_neg
      refine ⟨hfresh h2 (by simp [hm]), ?_⟩
      intro hEq
      exact hnd.1 (hEq ▸ List.mem_map_of_mem identity hm)

theorem rrfVal_le (i j : ℕ) (h : i ≤ j) : rrfVal 60 j ≤ rrfVal 60 i := by
  unfold rrfVal
  apply one_div_le_one_div_of_le
  · positivity
  · have : (i : ℚ) ≤ (j : ℚ) := by exact_mod_cast h
    linarith

theorem expectedRanks_mem_le (t : List Hit) :
    ∀ (i : ℕ) (p : String × ℚ), p ∈ expectedRanks 60 i t → p.2 ≤ rrfVal 60 i := by
  induction t with
  | nil => intro i p hp; simp [expectedRanks] at hp
  | cons h t ih =>
    intro i p hp
    simp only [expectedRanks, List.mem_cons] at hp
    rcases hp with rfl | hp
    · exact le_refl _
    · exact le_trans (ih (i + 1) p hp) (rrfVal_le i (i + 1) (by omega))

theorem expectedRanks_pairwise (t : List Hit) :
    ∀ i : ℕ, (expectedRanks 60 i t).Pairwise (fun a b => b.2 ≤ a.2) := by
  induction t with
  | nil => intro i; simp [expectedRanks]
  | cons h t ih =>
    intro i
    simp only [expectedRanks]
    rw [List.pairwise_cons]
    refine ⟨?_, ih (i + 1)⟩
    intro b hb
    exact le_trans (expectedRanks_mem_le t (i + 1) b hb) (rrfVal_le i (i + 1) (by omega))

theorem insertDesc_append (p : String × ℚ) (acc : List (String × ℚ))
    (h : ∀ q ∈ acc, ¬ q.2 < p.2) : insertDesc p acc = acc ++ [p] := by
  induction acc with
  | nil => simp [insertDesc]
  | cons q t ih =>
    have hq : ¬ q.2 < p.2 := h q (by simp)
    simp [insertDesc, hq, ih (fun r hr => h r (by simp [hr]))]

theorem foldl_insertDesc (l : List (String × ℚ)) :
    ∀ acc, (∀ p ∈ l, ∀ q ∈ acc, ¬ q.2 < p.2) →
      l.Pairwise (fun a b => b.2 ≤ a.2) →
      l.foldl (fun acc p => insertDesc p acc) acc = acc ++ l := by
  induction l with
  | nil => intro acc _ _; simp
  | cons h t ih =>
    intro acc hcond hpair
    rw [List.pairwise_cons] at hpair
    simp only [List.foldl_cons]
    rw [insertDesc_append h acc (fun q hq => hcond h (by simp) q hq)]
    rw [ih (acc ++ [h]) ?cond2 hpair.2]
    · simp
    case cond2 =>
      intro p hp q hq
      rcases List.mem_append.mp hq with hq | hq
      · exact hcond p (by simp [hp]) q hq
      · rw [List.mem_singleton] at hq
        subst hq
        exact not_lt.mpr (hpair.1 p hp)

theorem sortDesc_eq_self (l : List (String × ℚ))
    (h : l.Pairwise (fun a b => b.2 ≤ a.2)) : sortDesc l = l := by
  unfold sortDesc
  rw [foldl_insertDesc l [] (by simp) h]
  simp

theorem find?_reverse_unique (l : List Hit) :
    (l.map Hit.id).Nodup → ∀ h ∈ l, l.reverse.find? (fun h2 => h2.id == h.id) = some h := by
  induction l with
  | nil => intro _ h hm; simp at hm
  | cons a t ih =>
    intro hnd h hmem
    simp only [List.map_cons, List.nodup_cons] at hnd
    rw [List.reverse_cons, List.find?_append]
    rcases List.mem_cons.mp hmem with rfl | hmem2
    · have hnone : t.reverse.find? (fun h2 => h2.id == h.id) = none := by
        rw [List.find?_eq_none]
        intro x hx
        simp only [beq_iff_eq]
        intro hEq
        exact hnd.1 (hEq ▸ List.mem_map_of_mem Hit.id (List.mem_reverse.mp hx))
      rw [hnone]
      simp [List.find?]
    · rw [ih hnd.2 h hmem2]
      simp

theorem docmapFind_self (l : List Hit) (hne : ∀ h ∈ l, h.id ≠ "")
    (hnd : (l.map Hit.id).Nodup) : ∀ h ∈ l, docmapFind l h.id = some h := by
  intro h hm
  unfold docmapFind
  have hfilter : l.filter (fun h2 => h2.id != "") = l := by
    rw [List.filter_eq_self]
    intro a ha
    simpa using hne a ha
  rw [hfilter]
  exact find?_reverse_unique l hnd h hm

theorem projectRanked_expected (full : List Hit) (t : List Hit) :
    ∀ i : ℕ, (∀ h ∈ t, h.id ≠ "") → (∀ h ∈ t, docmapFind full h.id = some h) →
      projectRanked full (expectedRanks 60 i t) = some t := by
  induction t with
  | nil => intro i _ _; simp [expectedRanks, projectRanked]
  | cons h t ih =>
    intro i hne hfind
    have hid : identity h = h.id := identity_of_id_ne h (hne h (by simp))
    simp only [expectedRanks, projectRanked, hid]
    rw [hfind h (by simp)]
    rw [ih (i + 1) (fun h2 hm => hne h2 (by simp [hm])) (fun h2 hm => hfind h2 (by simp [hm]))]

/-! ### KNN circuit-breaker lemmas (support for C3) -/

theorem knnAttempt_of_false (env : VecEnv) : knnAttempt false env = (false, []) := by
  simp [knnAttempt]

theorem vecAttempted_of_false (env : VecEnv) : vecAttempted false env = false := by
  simp [vecAttempted]

theorem runKnn_false (envs : List VecEnv) :
    ∀ p ∈ runKnn false envs, p.1 = false ∧ p.2 = false := by
  induction envs with
  | nil => intro p hp; simp [runKnn] at hp
  | cons env rest ih =>
    intro p hp
    simp only [runKnn, knnAttempt_of_false, vecAttempted_of_false, List.mem_cons] at hp
    rcases hp with rfl | hp
    · exact ⟨rfl, rfl⟩
    · exact ih p hp

/-- The flag is only ever lowered: a `true` outcome implies a `true` input. -/
theorem knnAttempt_monotone (st : Bool) (env : VecEnv)
    (h : (knnAttempt st env).1 = true) : st = true := by
  by_cases hst : st = true
  · exact hst
  · exfalso
    simp only [Bool.not_eq_true] at hst
    subst hst
    rw [knnAttempt_of_false] at h
    cases h

/-! ### Filter-compiler lemmas (support for C5/C7/C8) -/

theorem normalizeSpecies_eq (species : String) :
    normalizeSpecies species =
      if pyCapitalize (pyStrip species) = "Dog" ∨ pyCapitalize (pyStrip species) = "Cat"
      then .ok (pyCapitalize (pyStrip species))
      else .error "species must be Dog or Cat" := rfl

theorem normalizeSpecies_ok (species sp : String)
    (h : normalizeSpecies species = .ok sp) :
    (sp = "Dog" ∨ sp = "Cat") ∧ sp = pyCapitalize (pyStrip species) := by
  rw [normalizeSpecies_eq] at h
  split at h
  · next hc => cases h; exact ⟨hc, rfl⟩
  · cases h

/-! Branch-evaluation equations for `stepClauses` (all hold by reduction of
the concrete field-name comparisons). -/

theorem stepClauses_eq_life_stage (flt : List (String × FVal)) (v : FVal) :
    stepClauses flt "life_stage" v =
      (match v with
       | .str s =>
         if pyLower s ≠ "all" then .ok ⟨[], [.termsList "life_stage" [s, "All"]], []⟩
         else .ok ⟨[.term "life_stage" (.str "All")], [], []⟩
       | _ => .ok ⟨[], [], []⟩) := rfl

theorem stepClauses_eq_food_type (flt : List (String × FVal)) (v : FVal) :
    stepClauses flt "food_type" v = .ok ⟨[], [.term "food_type" v], []⟩ := rfl

theorem stepClauses_eq_flavour (flt : List (String × FVal)) (v : FVal) :
    stepClauses flt "flavour" v = .ok ⟨[], [.term "flavour" v], []⟩ := rfl

theorem stepClauses_eq_brand (flt : List (String × FVal)) (v : FVal) :
    stepClauses flt "brand" v = .ok ⟨[], [.term "brand" v], []⟩ := rfl

theorem stepClauses_eq_manufacturer (flt : List (String × FVal)) (v : FVal) :
    stepClauses flt "manufacturer" v = .ok ⟨[], [.term "manufacturer" v], []⟩ := rfl

theorem stepClauses_eq_pack_size (flt : List (String × FVal)) (v : FVal) :
    stepClauses flt "pack_size" v = .ok ⟨[], [.term "pack_size" v], []⟩ := rfl

theorem stepClauses_eq_country (flt : List (String × FVal)) (v : FVal) :
    stepClauses flt "country_of_origin" v = .ok ⟨[], [.term "country_of_origin" v], []⟩ := rfl

theorem stepClauses_eq_tags_any (flt : List (String × FVal)) (v : FVal) :
    stepClauses flt "tags_any" v =
      (if listify v ≠ [] then .ok ⟨[.termsList "tags" (listify v)], [], []⟩
       else .ok ⟨[], [], []⟩) := rfl

theorem stepClauses_eq_price_min (flt : List (String × FVal)) (v : FVal) :
    stepClauses flt "price_min" v =
      (match priceBounds flt with
       | .error e => .error e
       | .ok pr =>
         if pr ≠ [] then .ok ⟨[], [.rangeC "price_sale" pr], []⟩ else .ok ⟨[], [], []⟩) := rfl

theorem stepClauses_eq_price_max (flt : List (String × FVal)) (v : FVal) :
    stepClauses flt "price_max" v =
      (match priceBounds flt with
       | .error e => .error e
       | .ok pr =>
         if pr ≠ [] then .ok ⟨[], [.rangeC "price_sale" pr], []⟩ else .ok ⟨[], [], []⟩) := rfl

theorem stepClauses_eq_rating (flt : List (String × FVal)) (v : FVal) :
    stepClauses flt "rating" v =
      (match v with
       | .dict d => .ok ⟨[], [.rangeC "rating" d], []⟩
       | _ =>
         match pyFloat v with
         | .ok q => .ok ⟨[], [.rangeC "rating" [("gte", q)]], []⟩
         | .error e => .error e) := rfl

theorem stepClauses_eq_num_reviews (flt : List (String × FVal)) (v : FVal) :
    stepClauses flt "num_reviews" v =
      (match v with
       | .dict d => .ok ⟨[], [.rangeC "num_reviews" d], []⟩
       | _ =>
         match pyInt v with
         | .ok n => .ok ⟨[], [.rangeC "num_reviews" [("gte", (n : ℚ))]], []⟩
         | .error e => .error e) := rfl

theorem stepClauses_eq_discount (flt : List (String × FVal)) (v : FVal) :
    stepClauses flt "discount_value" v =
      (match v with
       | .dict d => .ok ⟨[], [.rangeC "discount_value" d], []⟩
       | _ =>
         match pyFloat v with
         | .ok q => .ok ⟨[], [.rangeC "discount_value" [("gt", q)]], []⟩
         | .error e => .error e) := rfl

theorem stepClauses_eq_in_stock (flt : List (String × FVal)) (v : FVal) :
    stepClauses flt "availability.in_stock" v =
      .ok ⟨[], [.term "availability.in_stock" (.boolean v.truthy)], []⟩ := rfl

theorem stepClauses_eq_exclude (flt : List (String × FVal)) (v : FVal) :
    stepClauses flt "exclude_ingredients" v =
      .ok ⟨[], [],
        (listify v).foldr (fun ex acc =>
          Clause.matchPhrase "ingredients" ex :: Clause.matchPhrase "flavour" ex :: acc) []⟩ := rfl

theorem stepClauses_eq_breed_soft (flt : List (String × FVal)) (v : FVal) :
    stepClauses flt "breed_soft" v =
      .ok ⟨[.matchSoft "searchable_text" v "and"], [], []⟩ := rfl

theorem stepClauses_eq_generic (flt : List (String × FVal)) (f : String) (v : FVal)
    (h : f ∉ knownKeys) :
    stepClauses flt f v = .ok ⟨[], [.term f v], []⟩ := by
  simp only [knownKeys, List.mem_cons, List.not_mem_nil, or_false] at h
  push_neg at h
  obtain ⟨h1, h2, h3, h4, h5, h6, h7, h8, h9, h10, h11, h12, h13, h14, h15, h16⟩ := h
  unfold stepClauses
  rw [if_neg h1, if_neg h2, if_neg h3, if_neg h4, if_neg h5, if_neg h6, if_neg h7,
    if_neg h8, if_neg (not_or.mpr ⟨h9, h10⟩), if_neg h11, if_neg h12, if_neg h13,
    if_neg h14, if_neg h15, if_neg h16]

/-- A clause list consisting of a single range clause never contains a
species term clause. -/
theorem rangeFromFloat_count (pf : Except String ℚ) (fieldName lbl : String) (c : Clauses)
    (h : (match pf with
          | .ok q => Except.ok (⟨[], [Clause.rangeC fieldName [(lbl, q)]], []⟩ : Clauses)
          | .error e => .error e) = .ok c) :
    c.filt.countP isSpeciesTerm = 0 := by
  cases pf with
  | error e => cases h
  | ok q => cases h; simp [isSpeciesTerm, List.countP_cons]

theorem rangeFromInt_count (pf : Except String ℤ) (fieldName lbl : String) (c : Clauses)
    (h : (match pf with
          | .ok n => Except.ok (⟨[], [Clause.rangeC fieldName [(lbl, (n : ℚ))]], []⟩ : Clauses)
          | .error e => .error e) = .ok c) :
    c.filt.countP isSpeciesTerm = 0 := by
  cases pf with
  | error e => cases h
  | ok n => cases h; simp [isSpeciesTerm, List.countP_cons]

/-- A single range clause on a fixed field together with an emptiness test
never contributes a species term clause. -/
theorem priceStep_count (pb : Except String (List (String × ℚ))) (c : Clauses)
    (h : (match pb with
          | Except.error e => (Except.error e : Except String Clauses)
          | Except.ok pr =>
            if pr ≠ [] then Except.ok (⟨[], [Clause.rangeC "price_sale" pr], []⟩ : Clauses)
            else Except.ok ⟨[], [], []⟩) = Except.ok c) :
    c.filt.countP isSpeciesTerm = 0 := by
  cases pb with
  | error e => cases h
  | ok pr =>
    have h2 : (if pr ≠ [] then Except.ok (⟨[], [Clause.rangeC "price_sale" pr], []⟩ : Clauses)
        else .ok ⟨[], [], []⟩) = .ok c := h
    by_cases hpr : pr ≠ []
    · rw [if_pos hpr] at h2; cases h2; simp [isSpeciesTerm, List.countP_cons]
    · rw [if_neg hpr] at h2; cases h2; simp

theorem stepClauses_species_count (flt : List (String × FVal)) (f : String) (v : FVal)
    (hf : ¬ f = "species") (c : Clauses) (h : stepClauses flt f v = .ok c) :
    c.filt.countP isSpeciesTerm = 0 := by
  by_cases hk : f ∈ knownKeys
  · simp only [knownKeys, List.mem_cons, List.not_mem_nil, or_false] at hk
    rcases hk with rfl | rfl | rfl | rfl | rfl | rfl | rfl | rfl | rfl | rfl | rfl | rfl
      | rfl | rfl | rfl | rfl
    · -- life_stage
      rcases v with s | q | b | l | dd
      · have h2 : (if pyLower s ≠ "all"
            then Except.ok (⟨[], [.termsList "life_stage" [s, "All"]], []⟩ : Clauses)
            else .ok ⟨[.term "life_stage" (.str "All")], [], []⟩) = .ok c := h
        by_cases hall : pyLower s ≠ "all"
        · rw [if_pos hall] at h2; cases h2; simp +decide [isSpeciesTerm, List.countP_cons]
        · rw [if_neg hall] at h2; cases h2; simp
      · cases h; simp
      · cases h; simp
      · cases h; simp
      · cases h; simp
    · cases h; simp +decide [isSpeciesTerm, List.countP_cons]
    · cases h; simp +decide [isSpeciesTerm, List.countP_cons]
    · cases h; simp +decide [isSpeciesTerm, List.countP_cons]
    · cases h; simp +decide [isSpeciesTerm, List.countP_cons]
    · cases h; simp +decide [isSpeciesTerm, List.countP_cons]
    · cases h; simp +decide [isSpeciesTerm, List.countP_cons]
    · -- tags_any
      have h2 : (if listify v ≠ []
          then Except.ok (⟨[.termsList "tags" (listify v)], [], []⟩ : Clauses)
          else .ok ⟨[], [], []⟩) = .ok c := h
      by_cases hl : listify v ≠ []
      · rw [if_pos hl] at h2; cases h2; simp
      · rw [if_neg hl] at h2; cases h2; simp
    · exact priceStep_count (priceBounds flt) c h
    · exact priceStep_count (priceBounds flt) c h
    · -- rating
      rcases v with s | q | b | l | dd
      · exact rangeFromFloat_count (pyFloat (.str s)) "rating" "gte" c h
      · cases h; simp [isSpeciesTerm, List.countP_cons]
      · cases h; simp [isSpeciesTerm, List.countP_cons]
      · cases h
      · cases h; simp [isSpeciesTerm, List.countP_cons]
    · -- num_reviews
      rcases v with s | q | b | l | dd
      · exact rangeFromInt_count (pyInt (.str s)) "num_reviews" "gte" c h
      · cases h; simp [isSpeciesTerm, List.countP_cons]
      · cases h; simp [isSpeciesTerm, List.countP_cons]
      · cases h
      · cases h; simp [isSpeciesTerm, List.countP_cons]
    · -- discount_value
      rcases v with s | q | b | l | dd
      · exact rangeFromFloat_count (pyFloat (.str s)) "discount_value" "gt" c h
      · cases h; simp [isSpeciesTerm, List.countP_cons]
      · cases h; simp [isSpeciesTerm, List.countP_cons]
      · cases h
      · cases h; simp [isSpeciesTerm, List.countP_cons]
    · cases h; simp +decide [isSpeciesTerm, List.countP_cons]
    · cases h; simp
    · cases h; simp
  · rw [stepClauses_eq_generic flt f v hk] at h
    cases h
    simp only [List.countP_cons, List.countP_nil, isSpeciesTerm]
    have hbe : (f == "species") = false := by
      rw [beq_eq_false_iff_ne]
      exact hf
    simp [hbe]

theorem collectClauses_species_count (flt : List (String × FVal)) :
    ∀ (rest : List (String × FVal)) (c : Clauses),
      (∀ p ∈ rest, p.1 = "species" → p.2.truthy = false) →
      collectClauses flt rest = .ok c →
      c.filt.countP isSpeciesTerm = 0 := by
  intro rest
  induction rest with
  | nil =>
    intro c _ h
    unfold collectClauses at h
    cases h
    simp
  | cons p rest ih =>
    intro c hsp h
    obtain ⟨f, v⟩ := p
    unfold collectClauses at h
    by_cases ht : v.truthy = true
    · rw [if_pos ht] at h
      rcases hstep : stepClauses flt f v with e | d
      · rw [hstep] at h; cases h
      · rw [hstep] at h
        rcases hrest : collectClauses flt rest with e | c2
        · rw [hrest] at h; cases h
        · rw [hrest] at h
          cases h
          have hf : ¬ f = "species" := by
            intro hEq
            have := hsp (f, v) (by simp) hEq
            rw [this] at ht
            cases ht
          simp only [List.countP_append]
          rw [stepClauses_species_count flt f v hf d hstep,
            ih c2 (fun q hq => hsp q (by simp [hq])) hrest]
    · rw [if_neg ht] at h
      exact ih c (fun q hq => hsp q (by simp [hq])) h

/-! ### Claim theorems -/

/-- C1: for every pair of hit lists (lexical, vector), the fused score of a
document identity is the sum over both channels of `1/(60+i)` for each
1-based rank `i` at which that identity appears. -/
theorem C1_rrf_fused_score (bm25 knn : List Hit) (d : String) (hd : d ≠ "") :
    getD (fuse bm25 knn) d = contribFrom 60 1 bm25 d + contribFrom 60 1 knn d := by
  unfold fuse
  by_cases hk : knn.isEmpty
  · have hknil : knn = [] := List.isEmpty_iff.mp hk
    subst hknil
    simp [rrf_getD bm25 d hd, contribFrom]
  · rw [if_neg hk, addScores_getD (rrf knn) (rrf bm25) d (rrf_keys_nodup knn),
      rrf_getD bm25 d hd, rrf_getD knn d hd]

theorem C1_rrf_fused_score_witness :
    ("A" ≠ "") ∧
    getD (fuse [⟨"A", "x"⟩] [⟨"A", "x"⟩]) "A" =
      contribFrom 60 1 [⟨"A", "x"⟩] "A" + contribFrom 60 1 [⟨"A", "x"⟩] "A" ∧
    contribFrom 60 1 [⟨"A", "x"⟩] "A" = 1 / 61 :=
  ⟨by decide, C1_rrf_fused_score [⟨"A", "x"⟩] [⟨"A", "x"⟩] "A" (by decide),
    by norm_num +decide [contribFrom, identity, rrfVal]⟩

/-- C2 (amended): for every lexical hit list whose hits all carry a
non-empty, pairwise-distinct document id, an empty vector channel makes the
fused, projected ranking identical to the lexical hit list. -/
theorem C2_lexical_only_preserves_order (bm25 : List Hit)
    (hne : ∀ h ∈ bm25, h.id ≠ "") (hnd : (bm25.map Hit.id).Nodup) :
    rankedDocs bm25 [] = some bm25 := by
  have hne2 : ∀ h ∈ bm25, identity h ≠ "" := fun h hm => by
    rw [identity_of_id_ne h (hne h hm)]
    exact hne h hm
  have hnd2 : (bm25.map identity).Nodup := by
    rw [List.map_congr_left (fun h hm => identity_of_id_ne h (hne h hm))]
    exact hnd
  have hfuse : fuse bm25 [] = expectedRanks 60 1 bm25 := by
    have h1 : fuse bm25 [] = rrf bm25 := by simp [fuse]
    rw [h1, rrf, rrfAux_fresh 60 bm25 1 [] hne2 hnd2 (by simp)]
    simp
  have hsorted : sortDesc (fuse bm25 []) = expectedRanks 60 1 bm25 := by
    rw [hfuse]
    exact sortDesc_eq_self _ (expectedRanks_pairwise bm25 1)
  simp only [rankedDocs]
  rw [hsorted]
  cases bm25 with
  | nil => simp [expectedRanks]
  | cons a t =>
    rw [if_neg (by simp [expectedRanks])]
    rw [List.append_nil]
    exact projectRanked_expected (a :: t) (a :: t) 1 hne (docmapFind_self (a :: t) hne hnd)

theorem C2_lexical_only_preserves_order_witness :
    rankedDocs [⟨"a", ""⟩, ⟨"b", ""⟩] [] = some [⟨"a", ""⟩, ⟨"b", ""⟩] :=
  C2_lexical_only_preserves_order [⟨"a", ""⟩, ⟨"b", ""⟩] (by decide) (by decide)

/-- C2 counterexample: with non-empty but duplicated document ids the fused
order is not the lexical hit order -- the duplicated id accumulates
`1/62 + 1/63 > 1/61` and overtakes the first hit, and the output is also
deduplicated. -/
theorem C2_counterexample :
    ([(⟨"A", ""⟩ : Hit), ⟨"B", ""⟩, ⟨"B", ""⟩].all (fun h => h.id != "")) = true ∧
    rankedDocs [⟨"A", ""⟩, ⟨"B", ""⟩, ⟨"B", ""⟩] [] = some [⟨"B", ""⟩, ⟨"A", ""⟩] ∧
    some [(⟨"B", ""⟩ : Hit), ⟨"A", ""⟩] ≠ some [(⟨"A", ""⟩ : Hit), ⟨"B", ""⟩, ⟨"B", ""⟩] := by
  refine ⟨by decide, ?_, by decide⟩
  norm_num +decide [rankedDocs, fuse, rrf, rrfAux, setK, getD, identity, rrfVal,
    sortDesc, insertDesc, projectRanked, docmapFind]

/-- C3: once a vector query is attempted and fails with an error of the
"unsupported" class, the process-wide KNN flag becomes false, every later
request in the same process neither attempts a vector query nor sees a true
flag, and no transition ever raises the flag back to true. -/
theorem C3_knn_circuit_breaker (st : Bool) (env : VecEnv) (rest : List VecEnv)
    (hatt : vecAttempted st env = true)
    (herr : ∃ e, env.knnOutcome = .error e ∧ isUnsupportedError e = true) :
    (knnAttempt st env).1 = false ∧
    (∀ p ∈ runKnn (knnAttempt st env).1 rest, p.1 = false ∧ p.2 = false) ∧
    (∀ (st2 : Bool) (env2 : VecEnv), (knnAttempt st2 env2).1 = true → st2 = true) := by
  obtain ⟨e, he, hu⟩ := herr
  simp only [vecAttempted, Bool.and_eq_true] at hatt
  obtain ⟨⟨hemb, hst⟩, hvec⟩ := hatt
  have hstep : (knnAttempt st env).1 = false := by
    simp [knnAttempt, hemb, hst, hvec, he, hu]
  refine ⟨hstep, ?_, fun st2 env2 => knnAttempt_monotone st2 env2⟩
  rw [hstep]
  exact runKnn_false rest

theorem C3_knn_circuit_breaker_witness :
    (knnAttempt true ⟨"puppy food", some [1], .error "x Unknown key [knn] y"⟩).1 = false ∧
    (∀ p ∈ runKnn (knnAttempt true ⟨"puppy food", some [1],
        .error "x Unknown key [knn] y"⟩).1
        [⟨"more food", some [2], .ok [⟨"a", ""⟩]⟩], p.1 = false ∧ p.2 = false) ∧
    (∀ (st2 : Bool) (env2 : VecEnv), (knnAttempt st2 env2).1 = true → st2 = true) :=
  C3_knn_circuit_breaker true ⟨"puppy food", some [1], .error "x Unknown key [knn] y"⟩
    [⟨"more food", some [2], .ok [⟨"a", ""⟩]⟩] (by decide)
    ⟨"x Unknown key [knn] y", rfl, by decide⟩

/-- C4 counterexample: with six lexical hits and a requested page size of 3
the operation returns five results (the hard-coded top 5) and reports
`size = 5`, not the requested 3. -/
theorem C4_counterexample :
    searchOutput [⟨"d1", ""⟩, ⟨"d2", ""⟩, ⟨"d3", ""⟩, ⟨"d4", ""⟩, ⟨"d5", ""⟩, ⟨"d6", ""⟩]
        [] 1 3 =
      some ⟨[⟨"d1", ""⟩, ⟨"d2", ""⟩, ⟨"d3", ""⟩, ⟨"d4", ""⟩, ⟨"d5", ""⟩], 6, 1, 5, "bm25"⟩ ∧
    ¬ ((5 : ℕ) ≤ 3) ∧ (5 : ℕ) ≠ 3 := by
  refine ⟨?_, by decide, by decide⟩
  norm_num +decide [searchOutput, rankedDocs, fuse, rrf, rrfAux, setK, getD, identity,
    rrfVal, sortDesc, insertDesc, projectRanked, docmapFind]

/-- C4 (amended): the result page is always the fused ranked order truncated
to at most five entries, and the reported size field is the constant 5,
independent of the caller-supplied page size. -/
theorem C4_fixed_top5 (bm25 knn : List Hit) (page sizeReq : ℤ) (sp : SearchPage)
    (h : searchOutput bm25 knn page sizeReq = some sp) :
    sp.size = 5 ∧ sp.results.length ≤ 5 ∧
    ∃ rd, rankedDocs bm25 knn = some rd ∧ sp.results = rd.take 5 ∧ sp.total = rd.length := by
  unfold searchOutput at h
  cases hrd : rankedDocs bm25 knn with
  | none => rw [hrd] at h; cases h
  | some rd =>
    rw [hrd] at h
    have h2 : some (⟨rd.take 5, rd.length, page, 5,
        if knn.isEmpty then "bm25" else "hybrid"⟩ : SearchPage) = some sp := h
    cases h2
    refine ⟨rfl, ?_, rd, rfl, rfl, rfl⟩
    simp [List.length_take]

theorem C4_fixed_top5_witness :
    (5 : ℕ) = 5 ∧
    ([(⟨"a", ""⟩ : Hit)].length ≤ 5) ∧
    (∃ rd, rankedDocs [(⟨"a", ""⟩ : Hit)] [] = some rd ∧
      [(⟨"a", ""⟩ : Hit)] = rd.take 5 ∧ (1 : ℕ) = rd.length) := by
  have h := C4_fixed_top5 [⟨"a", ""⟩] [] 1 3 ⟨[⟨"a", ""⟩], 1, 1, 5, "bm25"⟩ (by decide)
  exact h

/-- C10: the fusion identity falls back to `variant_id` when `_id` is
missing, so the hit enters the fused ranking under `"V1"`; but the
projection dictionary is keyed only by `_id`, so resolving that identity
fails (a `KeyError` in the source, `none` here) -- the projection lookup is
not total, contradicting the spec's safety claim. -/
theorem C10_variant_fallback_breaks_projection :
    fuse [⟨"", "V1"⟩] [] = [("V1", rrfVal 60 1)] ∧
    rankedDocs [⟨"", "V1"⟩] [] = none := by
  constructor
  · simp +decide [fuse, rrf, rrfAux, setK, getD, identity]
  · decide

/-- C5 counterexample: a request with valid species `"Dog"` whose filters
mapping itself contains a truthy `species` entry compiles TWO species
exact-match term clauses (the generic fallthrough adds a second one with the
raw value), not exactly one. -/
theorem C5_counterexample :
    buildSearch "Dog" [("species", FVal.str "Fish")] "q" 3 =
      .ok ⟨9, textQueriesOf "q", 1,
        [Clause.term "species" (FVal.str "Dog"), Clause.term "species" (FVal.str "Fish")],
        [], []⟩ ∧
    ([Clause.term "species" (FVal.str "Dog"),
      Clause.term "species" (FVal.str "Fish")].countP isSpeciesTerm = 2) ∧
    (2 : ℕ) ≠ 1 :=
  ⟨by decide, by decide, by decide⟩

/-- C5 (amended): provided the filters mapping has no truthy `species`
entry of its own, every successfully built request carries exactly one
species exact-match term clause, whose value is the canonicalized species
in {Dog, Cat}. -/
theorem C5_species_clause_unique (species : String) (filters : List (String × FVal))
    (q : String) (n : ℤ) (body : BM25Body)
    (hok : buildSearch species filters q n = .ok body)
    (hsp : ∀ p ∈ filters, p.1 = "species" → p.2.truthy = false) :
    body.filter.countP isSpeciesTerm = 1 ∧
    ∃ sp, normalizeSpecies species = .ok sp ∧ (sp = "Dog" ∨ sp = "Cat") ∧
      Clause.term "species" (FVal.str sp) ∈ body.filter := by
  unfold buildSearch at hok
  cases hn : normalizeSpecies species with
  | error e =>
    rw [hn] at hok
    cases hok
  | ok sp =>
    rw [hn] at hok
    have hok2 : (match compileFilters sp filters with
        | Except.error e => (Except.error e : Except String BM25Body)
        | Except.ok cl =>
          match synthQText q sp filters with
          | Except.error e => Except.error e
          | Except.ok qtext =>
            Except.ok ⟨min (max (n * 3) n) 150, textQueriesOf qtext, 1, cl.filt,
              cl.should, cl.mustNot⟩) = Except.ok body := hok
    cases hc : compileFilters sp filters with
    | error e => rw [hc] at hok2; cases hok2
    | ok cl =>
      rw [hc] at hok2
      have hok3 : (match synthQText q sp filters with
          | Except.error e => (Except.error e : Except String BM25Body)
          | Except.ok qtext =>
            Except.ok ⟨min (max (n * 3) n) 150, textQueriesOf qtext, 1, cl.filt,
              cl.should, cl.mustNot⟩) = Except.ok body := hok2
      cases hq : synthQText q sp filters with
      | error e => rw [hq] at hok3; cases hok3
      | ok qt =>
        rw [hq] at hok3
        have hok4 : Except.ok (⟨min (max (n * 3) n) 150, textQueriesOf qt, 1, cl.filt,
            cl.should, cl.mustNot⟩ : BM25Body) = Except.ok body := hok3
        cases hok4
        unfold compileFilters at hc
        cases hcc : collectClauses filters filters with
        | error e => rw [hcc] at hc; cases hc
        | ok c0 =>
          rw [hcc] at hc
          have h3 : Except.ok (⟨c0.should, Clause.term "species" (FVal.str sp) :: c0.filt,
              c0.mustNot⟩ : Clauses) = .ok cl := hc
          cases h3
          refine ⟨?_, sp, ?_, (normalizeSpecies_ok species sp hn).1, ?_⟩
          · show (Clause.term "species" (FVal.str sp) :: c0.filt).countP isSpeciesTerm = 1
            rw [List.countP_cons, collectClauses_species_count filters filters c0 hsp hcc]
            simp [isSpeciesTerm]
          · rfl
          · show Clause.term "species" (FVal.str sp) ∈
              Clause.term "species" (FVal.str sp) :: c0.filt
            exact List.mem_cons_self _ _

theorem C5_species_clause_unique_witness :
    ([Clause.term "species" (FVal.str "Dog")].countP isSpeciesTerm = 1) ∧
    (∃ sp, normalizeSpecies "dog" = .ok sp ∧ (sp = "Dog" ∨ sp = "Cat") ∧
      Clause.term "species" (FVal.str sp) ∈ [Clause.term "species" (FVal.str "Dog")]) :=
  C5_species_clause_unique "dog" [] "treats" 3
    ⟨9, textQueriesOf "treats", 1, [Clause.term "species" (FVal.str "Dog")], [], []⟩
    (by decide) (by decide)

/-- C6 counterexample: the agent-side tool copy silently coerces an unknown
species to `"Dog"` instead of raising a validation error, while the MCP
server copy raises. -/
theorem C6_counterexample :
    petNormalizeSpecies "Fish" = "Dog" ∧
    normalizeSpecies "Fish" = .error "species must be Dog or Cat" :=
  ⟨by decide, by decide⟩

/-- C6 (amended): the MCP server operation canonicalizes species
case-insensitively via strip+capitalize, accepts exactly {Dog, Cat}, and an
invalid species aborts the request before any filter clause or query body
is built (the error is independent of filters and query); the agent tool
copy instead defaults every unknown species to `"Dog"` without error. -/
theorem C6_species_validation (species : String) (filters : List (String × FVal))
    (q : String) (n : ℤ) :
    (∀ sp, normalizeSpecies species = .ok sp →
      sp = pyCapitalize (pyStrip species) ∧ (sp = "Dog" ∨ sp = "Cat")) ∧
    (normalizeSpecies species = .error "species must be Dog or Cat" →
      buildSearch species filters q n = .error "species must be Dog or Cat") ∧
    (∀ s2 : String, pyLower s2 ≠ "dog" → pyLower s2 ≠ "cat" →
      petNormalizeSpecies s2 = "Dog") := by
  refine ⟨?_, ?_, ?_⟩
  · intro sp h
    exact ⟨(normalizeSpecies_ok species sp h).2, (normalizeSpecies_ok species sp h).1⟩
  · intro herr
    unfold buildSearch
    rw [herr]
  · intro s2 h1 h2
    unfold petNormalizeSpecies
    rw [if_neg (not_or.mpr ⟨h1, h2⟩)]

theorem C6_species_validation_witness :
    buildSearch "Fish" [] "q" 3 = .error "species must be Dog or Cat" :=
  (C6_species_validation "Fish" [] "q" 3).2.1 (by decide)

/-- C7 counterexample: with both `price_min` and `price_max` present the
loop body runs once per key and appends the combined range clause twice --
not "exactly one" range clause. -/
theorem C7_counterexample :
    compileFilters "Dog" [("price_min", FVal.num 10), ("price_max", FVal.num 30)] =
      .ok ⟨[], [Clause.term "species" (FVal.str "Dog"),
                Clause.rangeC "price_sale" [("gte", 10), ("lte", 30)],
                Clause.rangeC "price_sale" [("gte", 10), ("lte", 30)]], []⟩ ∧
    ([Clause.term "species" (FVal.str "Dog"),
      Clause.rangeC "price_sale" [("gte", 10), ("lte", 30)],
      Clause.rangeC "price_sale" [("gte", 10), ("lte", 30)]].countP isPriceRange = 2) ∧
    (2 : ℕ) ≠ 1 :=
  ⟨by decide, by decide, by decide⟩

/-- C7 (amended): the price bounds that are present combine into a single
range-clause value on `price_sale` carrying exactly those bounds (`gte`
from `price_min`, `lte` from `price_max`), but the clause is appended once
per truthy price key -- twice when both are present, once when one is,
never when neither is. -/
theorem C7_price_range_per_key (sp : String) (a b : ℚ) (ha : a ≠ 0) (hb : b ≠ 0) :
    compileFilters sp [("price_min", FVal.num a), ("price_max", FVal.num b)] =
      .ok ⟨[], [Clause.term "species" (FVal.str sp),
                Clause.rangeC "price_sale" [("gte", a), ("lte", b)],
                Clause.rangeC "price_sale" [("gte", a), ("lte", b)]], []⟩ ∧
    compileFilters sp [("price_min", FVal.num a)] =
      .ok ⟨[], [Clause.term "species" (FVal.str sp),
                Clause.rangeC "price_sale" [("gte", a)]], []⟩ ∧
    compileFilters sp [("price_max", FVal.num b)] =
      .ok ⟨[], [Clause.term "species" (FVal.str sp),
                Clause.rangeC "price_sale" [("lte", b)]], []⟩ ∧
    compileFilters sp [] = .ok ⟨[], [Clause.term "species" (FVal.str sp)], []⟩ := by
  have t1 : (FVal.num a).truthy = true := bne_iff_ne.mpr ha
  have t2 : (FVal.num b).truthy = true := bne_iff_ne.mpr hb
  refine ⟨?_, ?_, ?_, rfl⟩ <;>
    simp +decide [compileFilters, collectClauses, stepClauses, priceBounds, boundOf,
      dictGet, pyFloat, listify, List.find?, t1, t2]

theorem C7_price_range_per_key_witness :
    (compileFilters "Dog" [("price_min", FVal.num 10), ("price_max", FVal.num 30)] =
      .ok ⟨[], [Clause.term "species" (FVal.str "Dog"),
                Clause.rangeC "price_sale" [("gte", 10), ("lte", 30)],
                Clause.rangeC "price_sale" [("gte", 10), ("lte", 30)]], []⟩) ∧
    (compileFilters "Dog" [("price_min", FVal.num 10)] =
      .ok ⟨[], [Clause.term "species" (FVal.str "Dog"),
                Clause.rangeC "price_sale" [("gte", 10)]], []⟩) ∧
    (compileFilters "Dog" [("price_max", FVal.num 30)] =
      .ok ⟨[], [Clause.term "species" (FVal.str "Dog"),
                Clause.rangeC "price_sale" [("lte", 30)]], []⟩) ∧
    compileFilters "Dog" [] = .ok ⟨[], [Clause.term "species" (FVal.str "Dog")], []⟩ :=
  C7_price_range_per_key "Dog" 10 30 (by norm_num) (by norm_num)

/-- Both-field exclusion pairs, as the MCP loop appends them. -/
theorem exclFold_mem (entries : List String) (ex : String) (hm : ex ∈ entries) :
    Clause.matchPhrase "ingredients" ex ∈
      entries.foldr (fun e acc =>
        Clause.matchPhrase "ingredients" e :: Clause.matchPhrase "flavour" e :: acc) [] ∧
    Clause.matchPhrase "flavour" ex ∈
      entries.foldr (fun e acc =>
        Clause.matchPhrase "ingredients" e :: Clause.matchPhrase "flavour" e :: acc) [] := by
  induction entries with
  | nil => simp at hm
  | cons e t ih =>
    rcases List.mem_cons.mp hm with rfl | hm2
    · simp
    · have := ih hm2
      constructor
      · simp [this.1]
      · simp [this.2]

theorem exclFold_length (entries : List String) :
    (entries.foldr (fun e acc =>
      Clause.matchPhrase "ingredients" e :: Clause.matchPhrase "flavour" e :: acc) []).length
      = 2 * entries.length := by
  induction entries with
  | nil => simp
  | cons e t ih => simp [ih]; ring

/-- C8 counterexample: the agent tool copy excludes each parsed entry only
on the ingredients field; no flavour phrase clause is produced at all,
contradicting the claimed double exclusion. -/
theorem C8_counterexample :
    petExcludeClauses "chicken,corn" =
      [Clause.matchPhrase "ingredients" "chicken", Clause.matchPhrase "ingredients" "corn"] ∧
    (petExcludeClauses "chicken,corn").countP isFlavourPhrase = 0 :=
  ⟨by decide, by decide⟩

/-- C8 (amended): in the MCP server operation every parsed
exclude-ingredients entry yields a must-not phrase clause on BOTH the
ingredients and the flavour field (two clauses per entry); the agent tool
copy yields only the ingredients clause and never a flavour clause. -/
theorem C8_exclusions (sp s : String) (c : Clauses)
    (h : compileFilters sp [("exclude_ingredients", FVal.str s)] = .ok c) :
    (∀ ex ∈ csvList s, Clause.matchPhrase "ingredients" ex ∈ c.mustNot ∧
      Clause.matchPhrase "flavour" ex ∈ c.mustNot) ∧
    c.mustNot.length = 2 * (csvList s).length ∧
    (∀ ex ∈ csvList s, Clause.matchPhrase "ingredients" ex ∈ petExcludeClauses s) ∧
    (petExcludeClauses s).countP isFlavourPhrase = 0 := by
  by_cases hs : s = ""
  · subst hs
    have h2 : Except.ok (⟨[], [Clause.term "species" (FVal.str sp)], []⟩ : Clauses)
        = .ok c := h
    cases h2
    refine ⟨?_, ?_, ?_, ?_⟩ <;> simp +decide [csvList, splitOnChar, pyStrip, petExcludeClauses]
  · have hts : (FVal.str s).truthy = true := bne_iff_ne.mpr hs
    have h2 : compileFilters sp [("exclude_ingredients", FVal.str s)] =
        .ok ⟨[], [Clause.term "species" (FVal.str sp)],
          (csvList s).foldr (fun e acc =>
            Clause.matchPhrase "ingredients" e :: Clause.matchPhrase "flavour" e :: acc) []⟩ := by
      simp +decide [compileFilters, collectClauses, stepClauses, listify, hts]
    rw [h2] at h
    cases h
    refine ⟨?_, ?_, ?_, ?_⟩
    · intro ex hm
      exact exclFold_mem (csvList s) ex hm
    · exact exclFold_length (csvList s)
    · intro ex hm
      unfold petExcludeClauses
      rw [if_pos hs]
      exact List.mem_map_of_mem _ hm
    · unfold petExcludeClauses
      rw [if_pos hs]
      rw [List.countP_eq_zero]
      intro cla hcla
      rcases List.mem_map.mp hcla with ⟨ex, _, rfl⟩
      simp +decide [isFlavourPhrase]

theorem C8_exclusions_witness :
    (∀ ex ∈ csvList "chicken,corn",
      Clause.matchPhrase "ingredients" ex ∈
        [Clause.matchPhrase "ingredients" "chicken", Clause.matchPhrase "flavour" "chicken",
         Clause.matchPhrase "ingredients" "corn", Clause.matchPhrase "flavour" "corn"] ∧
      Clause.matchPhrase "flavour" ex ∈
        [Clause.matchPhrase "ingredients" "chicken", Clause.matchPhrase "flavour" "chicken",
         Clause.matchPhrase "ingredients" "corn", Clause.matchPhrase "flavour" "corn"]) ∧
    ([Clause.matchPhrase "ingredients" "chicken", Clause.matchPhrase "flavour" "chicken",
      Clause.matchPhrase "ingredients" "corn", Clause.matchPhrase "flavour" "corn"].length
        = 2 * (csvList "chicken,corn").length) ∧
    (∀ ex ∈ csvList "chicken,corn",
      Clause.matchPhrase "ingredients" ex ∈ petExcludeClauses "chicken,corn") ∧
    (petExcludeClauses "chicken,corn").countP isFlavourPhrase = 0 :=
  C8_exclusions "Dog" "chicken,corn"
    ⟨[], [Clause.term "species" (FVal.str "Dog")],
     [Clause.matchPhrase "ingredients" "chicken", Clause.matchPhrase "flavour" "chicken",
      Clause.matchPhrase "ingredients" "corn", Clause.matchPhrase "flavour" "corn"]⟩
    (by decide)

/-- C9 counterexample: the agent tool copy never appends the breed_soft
filter value to the synthesized default query text. -/
theorem C9_counterexample :
    petSynthQText "" "Dog" [("breed_soft", FVal.str "husky")] = "best food for dog" ∧
    "best food for dog" ≠ "best food for dog husky" :=
  ⟨by decide, by decide⟩

/-- C9 (amended): in the MCP server operation a blank text query is
synthesized as `best food for {lower species}` followed by the truthy
life_stage and breed_soft filter values; the agent tool copy appends only
the life_stage (and ignores breed_soft). -/
theorem C9_default_query_text (sp l b : String) :
    (synthQText "" sp [] = .ok ("best food for " ++ pyLower sp)) ∧
    (l ≠ "" → synthQText "" sp [("life_stage", FVal.str l)] =
      .ok ("best food for " ++ pyLower sp ++ " " ++ l)) ∧
    (l ≠ "" → b ≠ "" →
      synthQText "" sp [("life_stage", FVal.str l), ("breed_soft", FVal.str b)] =
        .ok ("best food for " ++ pyLower sp ++ " " ++ (l ++ " " ++ b))) ∧
    (synthQText "" "Dog" [] = .ok "best food for dog") ∧
    (synthQText "" "Dog" [("life_stage", FVal.str "puppy")] =
      .ok "best food for dog puppy") ∧
    (petSynthQText "" sp [("breed_soft", FVal.str b)] = "best food for " ++ pyLower sp) := by
  refine ⟨?_, ?_, ?_, by decide, by decide, ?_⟩
  · simp +decide [synthQText, qPart, dictGet, joinSpace, pyStrip]
  · intro hl
    have tl : (FVal.str l).truthy = true := bne_iff_ne.mpr hl
    simp +decide [synthQText, qPart, dictGet, joinSpace, pyStrip, List.find?, tl]
  · intro hl hb
    have tl : (FVal.str l).truthy = true := bne_iff_ne.mpr hl
    have tb : (FVal.str b).truthy = true := bne_iff_ne.mpr hb
    simp +decide [synthQText, qPart, dictGet, joinSpace, pyStrip, List.find?, tl, tb]
  · simp +decide [petSynthQText, dictGet, pyStrip, List.find?]

theorem C9_default_query_text_witness :
    synthQText "" "Dog" [("life_stage", FVal.str "puppy"), ("breed_soft", FVal.str "husky")] =
      .ok "best food for dog puppy husky" := by
  have h := (C9_default_query_text "Dog" "puppy" "husky").2.2.1 (by decide) (by decide)
  exact h.trans (by decide)
